import Mathlib

/-!
Verification of the count_locs command-line tool (src/main.go).

The Go program is shallowly embedded as follows.

* File-system effects (working directory lookup, glob expansion, stat,
  file reading) are gathered in an explicit environment `FsEnv`; every
  operation of the program becomes a pure Lean function over that
  environment.
* `countLines` mirrors the Go function of the same name: it opens a file
  (a `readFile` lookup; `none` models an open failure and contributes 0)
  and counts the lines that are non-empty after trimming whitespace.
  Line splitting follows the documented bufio.ScanLines behaviour:
  tokens are separated by a newline byte, a final trailing newline does
  not yield an extra empty token, and a trailing carriage return is
  stripped from each token.  Whitespace trimming follows
  strings.TrimSpace restricted to the Latin-1 white-space runes
  (the tab, newline, vertical-tab, form-feed, carriage-return, space,
  next-line and no-break-space characters); the wider Unicode
  White_Space table is not modelled, and no claim depends on it.
* `countLocs` mirrors the Go function of the same name.  The Go results
  map is modelled as an association list with in-place overwrite
  (`insertResult`), which captures the key/value contents of the map
  exactly; because Go map iteration order is unspecified, every
  statement about printing the map contents is made for an arbitrary
  enumeration `enum` that is a permutation of that association list.
* The per-pattern goroutine fan-out with an atomic accumulator is
  modelled as a fold over the match list; order independence of the
  accumulated total is proved as a theorem (permutation invariance).
* `filepathAbs` mirrors filepath.Abs on a Unix target: an absolute path
  (leading slash) is returned as is, a relative path is joined to the
  working directory, and the call fails exactly when the working
  directory lookup fails.  The lexical Clean normalisation applied by
  the Go library is omitted: path strings are opaque keys here and no
  claim depends on lexical normalisation.
* `main` mirrors the argument dispatch of func main, and `processInput`
  mirrors processInput; the elapsed-time value is an opaque string
  parameter, and each printed stream is modelled as a list of lines.
-/

/-- Latin-1 white-space runes accepted by strings.TrimSpace
(unicode.IsSpace): tab, newline, vertical tab, form feed, carriage
return, space, next line, no-break space. -/
def goIsSpace (c : Char) : Bool :=
  (c == ' ') || (c == '\t') || (c == '\n') || (c == '\x0b') ||
  (c == '\x0c') || (c == '\r') || (c == '\u0085') || (c == '\u00A0')

/-- strings.TrimSpace: remove leading and trailing white space. -/
def trimSpace (s : String) : String :=
  String.mk (((s.data.dropWhile goIsSpace).reverse.dropWhile goIsSpace).reverse)

/-- Split a character list at newline separators (the token list
produced by bufio.ScanLines before end-of-input adjustment).  The
second argument accumulates the current token in reverse. -/
def splitNl : List Char → List Char → List (List Char)
  | [], acc => [acc.reverse]
  | c :: rest, acc =>
      if c = '\n' then acc.reverse :: splitNl rest []
      else splitNl rest (c :: acc)

/-- bufio.ScanLines strips one trailing carriage return from a token. -/
def dropTrailingCR (l : List Char) : List Char :=
  if l.getLast? = some '\r' then l.dropLast else l

/-- The sequence of lines produced by scanning a file content with
bufio.Scanner under the ScanLines split function: tokens are separated
by newline bytes, a final trailing newline yields no extra empty token,
an empty content yields no token, and a trailing carriage return is
stripped from each token. -/
def scanLines (content : String) : List String :=
  match content.data with
  | [] => []
  | cs =>
      let parts := splitNl cs []
      let parts2 := if cs.getLast? = some '\n' then parts.dropLast else parts
      parts2.map (fun l => String.mk (dropTrailingCR l))

/-- The count performed by countLines on a successfully opened file:
the number of scanned lines that are non-empty after trimming. -/
def countLinesContent (content : String) : Nat :=
  ((scanLines content).filter (fun line => decide (trimSpace line ≠ ""))).length

/-- The file-system environment of one run: the working directory
lookup (os.Getwd, used by filepath.Abs), glob expansion over a
directory-rooted file system (doublestar.Glob over os.DirFS root),
stat (`some b` is success with IsDir = b, `none` is a stat error), and
file opening/reading (`none` is an open failure). -/
structure FsEnv where
  getwd : Except String String
  glob : String → String → Except String (List String)
  stat : String → Option Bool
  readFile : String → Option String

/-- filepath.Join of the root directory and a match path. -/
def joinPath (dir file : String) : String := dir ++ "/" ++ file

/-- countLines: open the file and count the non-empty (after trimming)
lines; a file that cannot be opened counts as 0 lines. -/
def countLines (env : FsEnv) (filePath : String) : Nat :=
  match env.readFile filePath with
  | none => 0
  | some content => countLinesContent content

/-- What one matched entry adds to the accumulated total in the
per-pattern loop of countLocs: nothing when stat fails or the entry is
a directory, otherwise its countLines value. -/
def fileContribution (env : FsEnv) (root file : String) : Nat :=
  match env.stat (joinPath root file) with
  | none => 0
  | some isDir => if isDir then 0 else countLines env (joinPath root file)

/-- The per-pattern total accumulated by the goroutine fan-out in
countLocs: each match is stat-ed, directories and stat failures are
skipped, and the countLines values of the remaining entries are added
to the shared accumulator.  Modelled as a left fold over the match
list; order independence is proved separately. -/
def patternTotal (env : FsEnv) (root : String) (files : List String) : Nat :=
  files.foldl (fun acc file =>
    match env.stat (joinPath root file) with
    | none => acc
    | some isDir => if isDir then acc else acc + countLines env (joinPath root file)) 0

/-- One iteration of the pattern loop of countLocs: glob the pattern
under the root; a glob error yields no result entry (the loop
continues), a successful expansion yields the accumulated total. -/
def countLocsPattern (env : FsEnv) (root pat : String) : Option Nat :=
  match env.glob root pat with
  | Except.error _ => none
  | Except.ok ms => some (patternTotal env root ms)

/-- Go map assignment on the association-list model of the results map:
overwrite the entry of an existing key in place, append a new key. -/
def insertResult : List (String × Nat) → String → Nat → List (String × Nat)
  | [], k, v => [(k, v)]
  | (k1, v1) :: rs, k, v =>
      if k1 = k then (k, v) :: rs else (k1, v1) :: insertResult rs k v

/-- The pattern loop of countLocs over the remaining patterns, carried
out on the association-list model of the results map. -/
def countLocsAux (env : FsEnv) (root : String) :
    List String → List (String × Nat) → List (String × Nat)
  | [], rs => rs
  | p :: ps, rs =>
      match countLocsPattern env root p with
      | none => countLocsAux env root ps rs
      | some t => countLocsAux env root ps (insertResult rs p t)

/-- countLocs: process each glob pattern under the root and collect the
per-pattern totals in the results map (association-list model). -/
def countLocs (env : FsEnv) (root : String) (patterns : List String) :
    List (String × Nat) :=
  countLocsAux env root patterns []

/-- The standard-error lines produced by the pattern loop of countLocs:
one message per failed glob expansion, naming the offending pattern. -/
def countLocsErrors (env : FsEnv) (root : String) (patterns : List String) :
    List String :=
  patterns.filterMap (fun p =>
    match env.glob root p with
    | Except.error e => some ("Error processing pattern " ++ p ++ ": " ++ e)
    | Except.ok _ => none)

/-- The grand total computed by processInput: the sum of the counts
stored in the results map.  Summation is commutative, so the
unspecified map iteration order of the Go range loop is immaterial. -/
def sumCounts (rs : List (String × Nat)) : Nat :=
  rs.foldl (fun acc pc => acc + pc.2) 0

/-- The per-pattern breakdown lines printed by processInput, one line
per enumerated entry of the results map. -/
def breakdownLines (entries : List (String × Nat)) : List String :=
  entries.map (fun pc => "-  " ++ pc.1 ++ ": " ++ toString pc.2)

/-- filepath.IsAbs on a Unix target: the path starts with a slash. -/
def isAbsPath (s : String) : Bool :=
  match s.data with
  | c :: _ => decide (c = '/')
  | [] => false

/-- filepath.Abs on a Unix target: an absolute path is returned as is
(the lexical Clean normalisation is omitted, see the file comment), a
relative path is joined to the working directory, and the call fails
exactly when the working directory lookup fails. -/
def filepathAbs (getwd : Except String String) (path : String) :
    Except String String :=
  if isAbsPath path then Except.ok path
  else
    match getwd with
    | Except.error e => Except.error e
    | Except.ok wd => Except.ok (joinPath wd path)

/-- Outcome of processInput: either the fatal directory-resolution
error (message to standard error, exit status 1, nothing printed on
standard output) or a finished run with its standard-output lines and
its standard-error lines. -/
inductive ProcResult where
  | fatal (msg : String)
  | done (stdout : List String) (stderr : List String)
deriving DecidableEq

/-- The standard-output lines of a processInput outcome. -/
def procStdout : ProcResult → List String
  | ProcResult.fatal _ => []
  | ProcResult.done out _ => out

/-- The exit status of a processInput outcome. -/
def procExitCode : ProcResult → Nat
  | ProcResult.fatal _ => 1
  | ProcResult.done _ _ => 0

/-- processInput: resolve the directory (fatal on failure), run
countLocs, and print the report.  `elapsed` is the opaque rendering of
the measured wall-clock duration.  `enum` is the enumeration order in
which the Go range loop visits the results map when printing the
breakdown; Go leaves that order unspecified, so it is an explicit
parameter, constrained in the theorems to be a permutation of the map
contents. -/
def processInput (env : FsEnv) (elapsed dir : String) (patterns : List String)
    (enum : List (String × Nat)) : ProcResult :=
  match filepathAbs env.getwd dir with
  | Except.error e => ProcResult.fatal ("Failed to resolve directory: " ++ e)
  | Except.ok absDir =>
      let results := countLocs env absDir patterns
      let totalLines := sumCounts results
      let breakdown :=
        if patterns.length > 1 then
          ["Breakdown of Lines of Code by Glob:", ""] ++ breakdownLines enum ++ [""]
        else []
      ProcResult.done
        (breakdown ++
          ["Total:\t" ++ toString totalLines ++ " lines of code", "",
           "Elapsed time: " ++ elapsed])
        (countLocsErrors env absDir patterns)

/-- Outcome of the argument dispatch in func main: a usage error (usage
line on standard error, exit status 1), an immediate help or version
exit (status 0), or a run of processInput on the given directory and
patterns. -/
inductive MainResult where
  | usageError
  | helpExit
  | versionExit
  | run (dir : String) (patterns : List String)
deriving DecidableEq

/-- func main (named mainGo since Lean reserves the name main for an
entry point): `args` is os.Args, so `args[0]` is the program name.
Fewer than two elements is a usage error; exactly two elements is
either a help/version flag or a usage error; otherwise the first
argument is the directory and the rest are the glob patterns. -/
def mainGo : List String → MainResult
  | [] => MainResult.usageError
  | [_] => MainResult.usageError
  | [_, a1] =>
      if a1 = "-h" ∨ a1 = "--help" then MainResult.helpExit
      else if a1 = "-v" ∨ a1 = "--version" then MainResult.versionExit
      else MainResult.usageError
  | _ :: dir :: p :: ps => MainResult.run dir (p :: ps)

/-- The standard-error lines printed by the argument dispatch. -/
def mainStderr : MainResult → List String
  | MainResult.usageError => ["Usage: count_locs <directory> <glob-patterns>..."]
  | _ => []

/-- The exit status of the argument dispatch, when it exits without
reaching processInput. -/
def mainImmediateExit : MainResult → Option Nat
  | MainResult.usageError => some 1
  | MainResult.helpExit => some 0
  | MainResult.versionExit => some 0
  | MainResult.run _ _ => none

/-! ### Helper lemmas about trimming and blank lines -/

/-- A trimmed string is empty exactly when every character of the
original string is white space. -/
lemma trimSpace_eq_empty_iff (s : String) :
    trimSpace s = "" ↔ ∀ c ∈ s.data, goIsSpace c = true := by
  rw [String.ext_iff]
  show (((s.data.dropWhile goIsSpace).reverse.dropWhile goIsSpace).reverse = [])
      ↔ _
  rw [List.reverse_eq_nil_iff, List.dropWhile_eq_nil_iff]
  constructor
  · intro h c hc
    have hsplit := List.takeWhile_append_dropWhile (p := goIsSpace) (l := s.data)
    rw [← hsplit] at hc
    rcases List.mem_append.mp hc with h1 | h1
    · exact List.mem_takeWhile_imp h1
    · exact h _ (List.mem_reverse.mpr h1)
  · intro h c hc
    have hc2 : c ∈ s.data.dropWhile goIsSpace := List.mem_reverse.mp hc
    have hsplit := List.takeWhile_append_dropWhile (p := goIsSpace) (l := s.data)
    exact h c (by rw [← hsplit]; exact List.mem_append.mpr (Or.inr hc2))

/-- The Boolean test used in countLines agrees with the presence of a
non-white-space character. -/
lemma trimSpace_ne_empty_bool (s : String) :
    decide (trimSpace s ≠ "") = s.data.any (fun c => !goIsSpace c) := by
  rcases h : s.data.any (fun c => !goIsSpace c) with _ | _
  · have h2 : trimSpace s = "" := by
      rw [trimSpace_eq_empty_iff]
      intro c hc
      have h3 := List.any_eq_false.mp h c hc
      simpa using h3
    simp [h2]
  · have h2 : trimSpace s ≠ "" := by
      obtain ⟨c, hc, hcs⟩ := List.any_eq_true.mp h
      intro he
      have h4 := (trimSpace_eq_empty_iff s).mp he c hc
      simp [h4] at hcs
    simp [h2]

/-! ### Helper lemmas about the accumulated totals -/

/-- The per-pattern accumulation loop, started from any value, adds the
sum of the individual file contributions. -/
lemma patternTotal_foldl (env : FsEnv) (root : String) :
    ∀ (files : List String) (a : Nat),
      files.foldl (fun acc file =>
        match env.stat (joinPath root file) with
        | none => acc
        | some isDir => if isDir then acc else acc + countLines env (joinPath root file)) a
        = a + (files.map (fileContribution env root)).sum := by
  intro files
  induction files with
  | nil => intro a; simp
  | cons f t ih =>
      intro a
      have hstep : (match env.stat (joinPath root f) with
          | none => a
          | some isDir => if isDir then a else a + countLines env (joinPath root f))
          = a + fileContribution env root f := by
        unfold fileContribution
        cases env.stat (joinPath root f) with
        | none => simp
        | some b => cases b <;> simp
      simp only [List.foldl_cons, List.map_cons, List.sum_cons]
      rw [hstep, ih]
      omega

/-- The per-pattern total is the sum of the file contributions of the
matched entries. -/
lemma patternTotal_eq_sum (env : FsEnv) (root : String) (files : List String) :
    patternTotal env root files = (files.map (fileContribution env root)).sum := by
  unfold patternTotal
  rw [patternTotal_foldl]
  omega

/-- The per-pattern total is invariant under reordering of the matched
entries (the concurrent completion order of the goroutines). -/
lemma patternTotal_perm (env : FsEnv) (root : String)
    {l1 l2 : List String} (h : List.Perm l1 l2) :
    patternTotal env root l1 = patternTotal env root l2 := by
  rw [patternTotal_eq_sum, patternTotal_eq_sum]
  exact (h.map (fileContribution env root)).sum_eq

/-- The sum of the file contributions keeps only the matched entries
that stat as regular (non-directory) files. -/
lemma contributions_filter (env : FsEnv) (root : String) :
    ∀ files : List String,
      (files.map (fileContribution env root)).sum =
        ((files.filter (fun f => decide (env.stat (joinPath root f) = some false))).map
          (fun f => countLines env (joinPath root f))).sum := by
  intro files
  induction files with
  | nil => simp
  | cons f t ih =>
      rcases hs : env.stat (joinPath root f) with _ | b
      · simp [List.filter_cons, hs, fileContribution, ih]
      · cases b
        · simp [List.filter_cons, hs, fileContribution, ih]
        · simp [List.filter_cons, hs, fileContribution, ih]

/-- The grand-total loop, started from any value, adds the sum of the
stored counts. -/
lemma sumCounts_foldl :
    ∀ (rs : List (String × Nat)) (a : Nat),
      rs.foldl (fun acc pc => acc + pc.2) a = a + (rs.map Prod.snd).sum := by
  intro rs
  induction rs with
  | nil => intro a; simp
  | cons hd t ih => intro a; simp [List.foldl_cons, ih]; omega

/-- The grand total is the sum of the counts stored in the results
map, in any order. -/
lemma sumCounts_eq (rs : List (String × Nat)) :
    sumCounts rs = (rs.map Prod.snd).sum := by
  unfold sumCounts
  rw [sumCounts_foldl]
  omega

/-! ### Helper lemmas about the results map (association-list model) -/

/-- Map assignment either overwrites an existing key in place or
appends the new key. -/
lemma insertResult_keys (rs : List (String × Nat)) (k : String) (v : Nat) :
    (insertResult rs k v).map Prod.fst =
      if k ∈ rs.map Prod.fst then rs.map Prod.fst
      else rs.map Prod.fst ++ [k] := by
  induction rs with
  | nil => simp [insertResult]
  | cons hd t ih =>
      obtain ⟨k1, v1⟩ := hd
      by_cases h : k1 = k
      · subst h
        simp [insertResult]
      · simp only [insertResult, if_neg h, List.map_cons]
        rw [ih]
        by_cases h2 : k ∈ t.map Prod.fst
        · simp [h2, Ne.symm h, List.mem_cons]
        · simp [h2, Ne.symm h, List.mem_cons]

/-- Map assignment preserves distinctness of the keys. -/
lemma insertResult_keys_nodup (rs : List (String × Nat)) (k : String) (v : Nat)
    (h : (rs.map Prod.fst).Nodup) :
    ((insertResult rs k v).map Prod.fst).Nodup := by
  rw [insertResult_keys]
  by_cases h2 : k ∈ rs.map Prod.fst
  · simpa [h2] using h
  · simp [h2, List.nodup_append, h]

/-- Membership in the results map after an assignment, for a map with
distinct keys: the assigned key now holds exactly the assigned value,
every other key is untouched. -/
lemma insertResult_mem (rs : List (String × Nat)) (k : String) (v : Nat)
    (h : (rs.map Prod.fst).Nodup) (q : String) (d : Nat) :
    ((q, d) ∈ insertResult rs k v ↔
      (q = k ∧ d = v) ∨ (q ≠ k ∧ (q, d) ∈ rs)) := by
  induction rs with
  | nil =>
      simp only [insertResult, List.mem_singleton, Prod.mk.injEq, List.not_mem_nil,
        and_false, or_false]
  | cons hd t ih =>
      obtain ⟨k1, v1⟩ := hd
      simp only [List.map_cons, List.nodup_cons] at h
      obtain ⟨hk1, hnd⟩ := h
      by_cases hkk : k1 = k
      · subst hkk
        have hins : insertResult ((k1, v1) :: t) k1 v = (k1, v) :: t := by
          simp [insertResult]
        rw [hins]
        have hmem : ∀ d2 : Nat, (k1, d2) ∈ t → False := by
          intro d2 hm
          exact hk1 (List.mem_map.mpr ⟨(k1, d2), hm, rfl⟩)
        simp only [List.mem_cons, Prod.mk.injEq]
        constructor
        · rintro (⟨h1, h2⟩ | h1)
          · exact Or.inl ⟨h1, h2⟩
          · by_cases hq : q = k1
            · exact absurd (hq ▸ h1) (fun hx => hmem d hx)
            · exact Or.inr ⟨hq, Or.inr h1⟩
        · rintro (⟨h1, h2⟩ | ⟨h1, (⟨h2, h3⟩ | h2)⟩)
          · exact Or.inl ⟨h1, h2⟩
          · exact absurd h2 h1
          · exact Or.inr h2
      · have hins : insertResult ((k1, v1) :: t) k v = (k1, v1) :: insertResult t k v := by
          simp [insertResult, hkk]
        rw [hins]
        have hq1 : q = k1 → q ≠ k := fun h1 => h1 ▸ hkk
        simp only [List.mem_cons, Prod.mk.injEq, ih hnd]
        constructor
        · rintro (⟨h1, h2⟩ | (⟨h1, h2⟩ | ⟨h1, h2⟩))
          · exact Or.inr ⟨hq1 h1, Or.inl ⟨h1, h2⟩⟩
          · exact Or.inl ⟨h1, h2⟩
          · exact Or.inr ⟨h1, Or.inr h2⟩
        · rintro (⟨h1, h2⟩ | ⟨h1, (⟨h2, h3⟩ | h2)⟩)
          · exact Or.inr (Or.inl ⟨h1, h2⟩)
          · exact Or.inl ⟨h2, h3⟩
          · exact Or.inr (Or.inr ⟨h1, h2⟩)

/-- The keys of the results map stay distinct throughout the pattern
loop. -/
lemma countLocsAux_keys_nodup (env : FsEnv) (root : String) :
    ∀ (ps : List String) (rs : List (String × Nat)),
      (rs.map Prod.fst).Nodup →
      ((countLocsAux env root ps rs).map Prod.fst).Nodup := by
  intro ps
  induction ps with
  | nil => intro rs h; simpa [countLocsAux] using h
  | cons p t ih =>
      intro rs h
      rcases hcp : countLocsPattern env root p with _ | v
      · simpa only [countLocsAux, hcp] using ih rs h
      · simpa only [countLocsAux, hcp] using
          ih (insertResult rs p v) (insertResult_keys_nodup rs p v h)

/-- The keys of the final results map are distinct. -/
lemma countLocs_keys_nodup (env : FsEnv) (root : String) (patterns : List String) :
    ((countLocs env root patterns).map Prod.fst).Nodup :=
  countLocsAux_keys_nodup env root patterns [] (by simp)

/-- Membership in the results map built by the pattern loop: a pattern
of the remaining list whose expansion succeeds ends up holding exactly
its recomputed total; every other key keeps its entry. -/
lemma countLocsAux_mem (env : FsEnv) (root : String) :
    ∀ (ps : List String) (rs : List (String × Nat)),
      (rs.map Prod.fst).Nodup →
      ∀ (p : String) (c : Nat),
      ((p, c) ∈ countLocsAux env root ps rs ↔
        (if p ∈ ps ∧ (countLocsPattern env root p).isSome
         then countLocsPattern env root p = some c
         else (p, c) ∈ rs)) := by
  intro ps
  induction ps with
  | nil =>
      intro rs h p c
      simp [countLocsAux]
  | cons q t ih =>
      intro rs h p c
      rcases hq : countLocsPattern env root q with _ | v
      · rw [show countLocsAux env root (q :: t) rs = countLocsAux env root t rs from by
          simp only [countLocsAux, hq]]
        rw [ih rs h p c]
        by_cases hpq : p = q
        · subst hpq
          simp [hq]
        · simp [List.mem_cons, hpq]
      · rw [show countLocsAux env root (q :: t) rs
            = countLocsAux env root t (insertResult rs q v) from by
          simp only [countLocsAux, hq]]
        rw [ih (insertResult rs q v) (insertResult_keys_nodup rs q v h) p c]
        by_cases hpq : p = q
        · subst hpq
          simp only [hq, Option.isSome_some, and_true, List.mem_cons, true_or, if_pos,
            Option.some.injEq]
          by_cases hpt : p ∈ t
          · simp [hpt]
          · simp only [hpt, false_and, if_neg, insertResult_mem rs p v h p c]
            simp [eq_comm]
        · have hmem := insertResult_mem rs q v h p c
          rcases hcp : countLocsPattern env root p with _ | w
          · simp only [Option.isSome_none, Bool.false_eq_true, and_false, if_false,
              hmem]
            simp [hpq]
          · by_cases hpt : p ∈ t
            · simp [List.mem_cons, hpt]
            · simp [List.mem_cons, hpt, hpq, hmem]

/-- Membership in the final results map: a key/count pair is stored
exactly when the key is a supplied pattern whose processing produced
that count. -/
lemma countLocs_mem (env : FsEnv) (root : String) (patterns : List String)
    (p : String) (c : Nat) :
    ((p, c) ∈ countLocs env root patterns ↔
      p ∈ patterns ∧ countLocsPattern env root p = some c) := by
  have h := countLocsAux_mem env root patterns [] (by simp) p c
  rw [countLocs] at *
  rw [h]
  by_cases hp : p ∈ patterns
  · rcases hcp : countLocsPattern env root p with _ | w
    · simp [hp, hcp]
    · simp [hp, hcp, eq_comm]
  · simp [hp]

/-- A pattern whose expansion fails is skipped by the loop: the
results map is the one obtained from the remaining patterns. -/
lemma countLocsAux_skip (env : FsEnv) (root p : String)
    (hp : countLocsPattern env root p = none) :
    ∀ (ps : List String) (rs : List (String × Nat)),
      countLocsAux env root ps rs =
        countLocsAux env root (ps.filter (fun q => q != p)) rs := by
  intro ps
  induction ps with
  | nil => intro rs; simp
  | cons q t ih =>
      intro rs
      by_cases hq : q = p
      · subst hq
        have hb : (q != q) = false := by simp
        simp only [List.filter_cons, hb, if_false, countLocsAux, hp]
        exact ih rs
      · have hb : (q != p) = true := by simp [hq]
        simp only [List.filter_cons, hb, if_true, countLocsAux]
        rcases hcq : countLocsPattern env root q with _ | w
        · exact ih rs
        · exact ih (insertResult rs q w)

/-- A failed pattern produces its standard-error message, naming the
pattern. -/
lemma countLocsErrors_mem (env : FsEnv) (root : String) (patterns : List String)
    (p e : String) (hp : p ∈ patterns) (he : env.glob root p = Except.error e) :
    ("Error processing pattern " ++ p ++ ": " ++ e)
      ∈ countLocsErrors env root patterns := by
  unfold countLocsErrors
  rw [List.mem_filterMap]
  exact ⟨p, hp, by rw [he]⟩

/-- The breakdown header differs from the total line. -/
lemma header_ne_total (s : String) :
    "Breakdown of Lines of Code by Glob:" ≠ "Total:\t" ++ s := by
  intro h
  have h2 : ("Breakdown of Lines of Code by Glob:").data.head?
      = ("Total:\t" ++ s).data.head? := congrArg (fun t : String => t.data.head?) h
  have hL : ("Breakdown of Lines of Code by Glob:").data.head? = some 'B' := rfl
  have hR : ("Total:\t" ++ s).data.head? = some 'T' := rfl
  rw [hL, hR] at h2
  exact absurd h2 (by decide)

/-- The breakdown header differs from the elapsed-time line. -/
lemma header_ne_elapsed (s : String) :
    "Breakdown of Lines of Code by Glob:" ≠ "Elapsed time: " ++ s := by
  intro h
  have h2 : ("Breakdown of Lines of Code by Glob:").data.head?
      = ("Elapsed time: " ++ s).data.head? := congrArg (fun t : String => t.data.head?) h
  have hL : ("Breakdown of Lines of Code by Glob:").data.head? = some 'B' := rfl
  have hR : ("Elapsed time: " ++ s).data.head? = some 'E' := rfl
  rw [hL, hR] at h2
  exact absurd h2 (by decide)

/-! ### Concrete file systems used to exercise the theorems -/

/-- A small concrete run: root /r holds a regular file a.txt with
three non-blank lines, a regular file sub/b.txt with three non-blank
lines, and a directory d; every glob pattern except an opening bracket
matches all three entries, and the opening-bracket pattern fails with
a syntax error (doublestar rejects an unterminated character class). -/
def sampleEnv : FsEnv where
  getwd := Except.ok "/wd"
  glob := fun _ p =>
    if p = "[" then Except.error "syntax error in pattern"
    else Except.ok ["a.txt", "sub/b.txt", "d"]
  stat := fun path =>
    if path = "/r/a.txt" then some false
    else if path = "/r/sub/b.txt" then some false
    else if path = "/r/d" then some true
    else none
  readFile := fun path =>
    if path = "/r/a.txt" then some "Line one\n\n   \nLine two\nLine three\n"
    else if path = "/r/sub/b.txt" then some "One\nTwo\nThree\n"
    else none

/-! ### C3: countLines semantics -/

/-- C3: countLines returns the number of scanned lines that are
non-empty after trimming leading and trailing whitespace
(equivalently, that contain a non-white-space character), and it
returns 0, not an error, for a file that cannot be opened. -/
theorem countLines_spec (env : FsEnv) (path : String) :
    (env.readFile path = none → countLines env path = 0) ∧
    (∀ content, env.readFile path = some content →
      countLines env path =
        ((scanLines content).filter
          (fun line => line.data.any (fun c => !goIsSpace c))).length) := by
  constructor
  · intro h
    simp [countLines, h]
  · intro content h
    simp only [countLines, h]
    unfold countLinesContent
    congr 1
    apply List.filter_congr
    intro line _
    exact trimSpace_ne_empty_bool line

/-- C3 (witness): on the example content of the specification the
count is 3, and an unopenable file counts 0. -/
theorem countLines_spec_witness :
    countLines sampleEnv "/r/a.txt" = 3 ∧ countLines sampleEnv "/r/nope" = 0 := by
  constructor
  · have h := (countLines_spec sampleEnv "/r/a.txt").2
        "Line one\n\n   \nLine two\nLine three\n" rfl
    rw [h]
    rfl
  · exact (countLines_spec sampleEnv "/r/nope").1 rfl

/-! ### C4: per-pattern totals -/

/-- C4: a successfully expanded pattern stores the accumulated total;
that total is invariant under the processing order of the matched
entries, and equals the sum of countLines over the matched entries
that stat as regular (non-directory) files — matched directories and
stat failures contribute nothing. -/
theorem patternTotal_spec (env : FsEnv) (root p : String)
    (l l2 : List String) (hg : env.glob root p = Except.ok l)
    (hperm : List.Perm l l2) :
    countLocsPattern env root p = some (patternTotal env root l) ∧
    patternTotal env root l = patternTotal env root l2 ∧
    patternTotal env root l =
      ((l.filter (fun f => decide (env.stat (joinPath root f) = some false))).map
        (fun f => countLines env (joinPath root f))).sum := by
  refine ⟨?_, patternTotal_perm env root hperm, ?_⟩
  · simp [countLocsPattern, hg]
  · rw [patternTotal_eq_sum]
    exact contributions_filter env root l

/-- C4 (witness): on the sample run the pattern total is 3 + 3 = 6,
whatever the order the three matched entries complete in, and the
directory contributes nothing. -/
theorem patternTotal_spec_witness :
    countLocsPattern sampleEnv "/r" "**/*.txt" = some 6 ∧
    patternTotal sampleEnv "/r" ["a.txt", "sub/b.txt", "d"] =
      patternTotal sampleEnv "/r" ["d", "a.txt", "sub/b.txt"] := by
  have h := patternTotal_spec sampleEnv "/r" "**/*.txt"
      ["a.txt", "sub/b.txt", "d"] ["d", "a.txt", "sub/b.txt"] rfl (by decide)
  refine ⟨?_, h.2.1⟩
  rw [h.1]
  rfl

/-! ### C5: failed patterns are reported and skipped -/

/-- C5: a pattern whose glob expansion fails is reported on standard
error naming the pattern; the run continues and the results map (hence
the breakdown and the grand total) is the one obtained from the
remaining patterns, with no entry for the failed pattern. -/
theorem pattern_error_skipped (env : FsEnv) (root : String)
    (patterns : List String) (p e : String)
    (hp : p ∈ patterns) (he : env.glob root p = Except.error e) :
    ("Error processing pattern " ++ p ++ ": " ++ e)
        ∈ countLocsErrors env root patterns ∧
    p ∉ (countLocs env root patterns).map Prod.fst ∧
    countLocs env root patterns
      = countLocs env root (patterns.filter (fun q => q != p)) := by
  have hnone : countLocsPattern env root p = none := by
    simp [countLocsPattern, he]
  refine ⟨countLocsErrors_mem env root patterns p e hp he, ?_, ?_⟩
  · intro hmem
    obtain ⟨qc, hqc, hq⟩ := List.mem_map.mp hmem
    obtain ⟨q, c⟩ := qc
    simp only at hq
    subst hq
    have h2 := (countLocs_mem env root patterns q c).mp hqc
    rw [hnone] at h2
    exact absurd h2.2 (by simp)
  · unfold countLocs
    exact countLocsAux_skip env root p hnone patterns []

/-- C5 (witness): in the sample run with a failing bracket pattern and
a succeeding pattern, the error line naming the bracket pattern is
printed, the bracket pattern has no results entry, and the succeeding
pattern is still processed with total 6. -/
theorem pattern_error_skipped_witness :
    ("Error processing pattern [: syntax error in pattern")
        ∈ countLocsErrors sampleEnv "/r" ["[", "**/*.txt"] ∧
    "[" ∉ (countLocs sampleEnv "/r" ["[", "**/*.txt"]).map Prod.fst := by
  have h := pattern_error_skipped sampleEnv "/r" ["[", "**/*.txt"] "["
      "syntax error in pattern" (by decide) rfl
  exact ⟨h.1, h.2.1⟩

/-! ### C6: the grand total and its printed lines -/

/-- C6: whenever the directory resolves, the run prints a report whose
total line shows exactly the sum of the per-pattern totals stored in
the results map, followed by a blank line and the elapsed-time line;
each stored count is the total computed for that pattern. -/
theorem grand_total_line (env : FsEnv) (elapsed dir : String)
    (patterns : List String) (enum : List (String × Nat)) (absDir : String)
    (h : filepathAbs env.getwd dir = Except.ok absDir) :
    processInput env elapsed dir patterns enum =
      ProcResult.done
        ((if patterns.length > 1 then
            ["Breakdown of Lines of Code by Glob:", ""] ++ breakdownLines enum ++ [""]
          else []) ++
          ["Total:\t"
              ++ toString (((countLocs env absDir patterns).map Prod.snd).sum)
              ++ " lines of code", "", "Elapsed time: " ++ elapsed])
        (countLocsErrors env absDir patterns) ∧
    (∀ p c, (p, c) ∈ countLocs env absDir patterns →
      countLocsPattern env absDir p = some c) := by
  constructor
  · simp only [processInput, h]
    rw [sumCounts_eq]
  · intro p c hm
    exact ((countLocs_mem env absDir patterns p c).mp hm).2

/-- C6 (witness): the single-pattern sample run prints the total 6. -/
theorem grand_total_line_witness :
    processInput sampleEnv "1ms" "/r" ["**/*.txt"] [] =
      ProcResult.done ["Total:\t6 lines of code", "", "Elapsed time: 1ms"] [] := by
  have h := (grand_total_line sampleEnv "1ms" "/r" ["**/*.txt"] [] "/r" rfl).1
  rw [h]
  rfl

/-! ### C7: the breakdown appears exactly for multi-pattern runs -/

/-- C7: when the directory resolves, the breakdown header is printed
if and only if more than one pattern was supplied; a run with exactly
one pattern prints only the total line, the blank line and the
elapsed-time line. -/
theorem breakdown_iff_multi (env : FsEnv) (elapsed dir : String)
    (patterns : List String) (enum : List (String × Nat)) (absDir : String)
    (h : filepathAbs env.getwd dir = Except.ok absDir) :
    ("Breakdown of Lines of Code by Glob:"
        ∈ procStdout (processInput env elapsed dir patterns enum)
      ↔ patterns.length > 1) ∧
    (patterns.length = 1 →
      procStdout (processInput env elapsed dir patterns enum) =
        ["Total:\t" ++ toString (sumCounts (countLocs env absDir patterns))
            ++ " lines of code", "", "Elapsed time: " ++ elapsed]) := by
  have hstd : procStdout (processInput env elapsed dir patterns enum) =
      (if patterns.length > 1 then
        ["Breakdown of Lines of Code by Glob:", ""] ++ breakdownLines enum ++ [""]
      else []) ++
      ["Total:\t" ++ toString (sumCounts (countLocs env absDir patterns))
          ++ " lines of code", "", "Elapsed time: " ++ elapsed] := by
    simp only [processInput, h, procStdout]
  constructor
  · rw [hstd]
    by_cases hlen : patterns.length > 1
    · simp [hlen]
    · simp only [if_neg hlen, List.nil_append, List.mem_cons, List.not_mem_nil,
        or_false]
      refine ⟨fun hmem => ?_, fun hgt => absurd hgt hlen⟩
      rcases hmem with h1 | h1 | h1
      · exact absurd h1 (header_ne_total _)
      · exact absurd h1 (by decide)
      · exact absurd h1 (header_ne_elapsed _)
  · intro hlen1
    rw [hstd]
    have hlen : ¬ patterns.length > 1 := by omega
    simp [hlen]

/-- C7 (witness): the single-pattern sample run prints exactly the
three closing lines and no breakdown header. -/
theorem breakdown_iff_multi_witness :
    procStdout (processInput sampleEnv "1ms" "/r" ["**/*.txt"] []) =
      ["Total:\t6 lines of code", "", "Elapsed time: 1ms"] ∧
    ¬ ("Breakdown of Lines of Code by Glob:"
        ∈ procStdout (processInput sampleEnv "1ms" "/r" ["**/*.txt"] [])) := by
  have h := breakdown_iff_multi sampleEnv "1ms" "/r" ["**/*.txt"] [] "/r" rfl
  constructor
  · rw [h.2 rfl]
    rfl
  · intro hmem
    have h2 := h.1.mp hmem
    simp at h2

/-! ### C8: usage errors and help/version flags -/

/-- C8: a zero-argument invocation (os.Args holds at most the program
name) and any single-argument invocation other than the help/version
flags print the one-line usage error on standard error and exit with
status 1, while the help/version flags exit with status 0. -/
theorem cli_usage_and_flags (prog a : String)
    (h : a ≠ "-h" ∧ a ≠ "--help" ∧ a ≠ "-v" ∧ a ≠ "--version") :
    mainGo [] = MainResult.usageError ∧
    mainGo [prog] = MainResult.usageError ∧
    mainStderr (mainGo [prog])
      = ["Usage: count_locs <directory> <glob-patterns>..."] ∧
    mainGo [prog, a] = MainResult.usageError ∧
    mainStderr (mainGo [prog, a])
      = ["Usage: count_locs <directory> <glob-patterns>..."] ∧
    mainImmediateExit (mainGo [prog, a]) = some 1 ∧
    mainGo [prog, "-h"] = MainResult.helpExit ∧
    mainGo [prog, "--help"] = MainResult.helpExit ∧
    mainGo [prog, "-v"] = MainResult.versionExit ∧
    mainGo [prog, "--version"] = MainResult.versionExit ∧
    mainImmediateExit MainResult.usageError = some 1 ∧
    mainImmediateExit MainResult.helpExit = some 0 ∧
    mainImmediateExit MainResult.versionExit = some 0 := by
  obtain ⟨h1, h2, h3, h4⟩ := h
  refine ⟨rfl, rfl, rfl, ?_, ?_, ?_, by simp [mainGo], by simp [mainGo],
    by simp [mainGo], by simp [mainGo], rfl, rfl, rfl⟩
  · simp [mainGo, h1, h2, h3, h4]
  · simp [mainGo, mainStderr, h1, h2, h3, h4]
  · simp [mainGo, mainImmediateExit, h1, h2, h3, h4]

/-- C8 (witness): concrete instances of the usage error and of the
help flag. -/
theorem cli_usage_and_flags_witness :
    mainGo ["count_locs", "foo"] = MainResult.usageError ∧
    mainGo ["count_locs", "-h"] = MainResult.helpExit := by
  have h := cli_usage_and_flags "count_locs" "foo" (by decide)
  exact ⟨h.2.2.2.1, h.2.2.2.2.2.2.1⟩

/-! ### C10: flags are positional beyond the first argument -/

/-- C10: with two or more arguments after the program name, the first
is always the directory and the rest are always the patterns — the
help/version spellings get no special treatment there. -/
theorem multiarg_flags_positional (prog dir p : String) (ps : List String) :
    mainGo (prog :: dir :: p :: ps) = MainResult.run dir (p :: ps) := rfl

/-! ### C9: a file matched by several patterns is counted per pattern -/

/-- C9: in a run with two distinct patterns whose expansions both
contain the same regular file, that file adds its countLines value to
both per-pattern totals, so the grand total counts it twice. -/
theorem shared_file_counted_per_pattern (env : FsEnv) (root p1 p2 f : String)
    (l1 l2 : List String) (hne : p1 ≠ p2)
    (h1 : env.glob root p1 = Except.ok l1) (h2 : env.glob root p2 = Except.ok l2)
    (hf1 : f ∈ l1) (hf2 : f ∈ l2)
    (hreg : env.stat (joinPath root f) = some false) :
    sumCounts (countLocs env root [p1, p2]) =
      2 * countLines env (joinPath root f)
        + (patternTotal env root (l1.erase f) + patternTotal env root (l2.erase f)) := by
  have hres : countLocs env root [p1, p2]
      = [(p1, patternTotal env root l1), (p2, patternTotal env root l2)] := by
    simp [countLocs, countLocsAux, countLocsPattern, h1, h2, insertResult, hne]
  have hsplit : ∀ l : List String, f ∈ l →
      patternTotal env root l
        = countLines env (joinPath root f) + patternTotal env root (l.erase f) := by
    intro l hf
    have hp := List.perm_cons_erase hf
    calc patternTotal env root l
        = patternTotal env root (f :: l.erase f) := patternTotal_perm env root hp
      _ = countLines env (joinPath root f) + patternTotal env root (l.erase f) := by
          rw [patternTotal_eq_sum, patternTotal_eq_sum]
          simp [fileContribution, hreg]
  rw [hres, sumCounts_eq]
  simp only [List.map_cons, List.map_nil, List.sum_cons, List.sum_nil]
  rw [hsplit l1 hf1, hsplit l2 hf2]
  omega

/-- A run with two patterns and a single shared regular file holding
one non-blank line. -/
def sharedEnv : FsEnv where
  getwd := Except.ok "/wd"
  glob := fun _ p =>
    if p = "*.a" then Except.ok ["s"]
    else if p = "*.b" then Except.ok ["s"]
    else Except.error "bad"
  stat := fun path => if path = "/r/s" then some false else none
  readFile := fun path => if path = "/r/s" then some "x\n" else none

/-- C9 (witness): the shared one-line file is counted once per
pattern, for a grand total of 2. -/
theorem shared_file_counted_witness :
    sumCounts (countLocs sharedEnv "/r" ["*.a", "*.b"]) = 2 := by
  have h := shared_file_counted_per_pattern sharedEnv "/r" "*.a" "*.b" "s"
      ["s"] ["s"] (by decide) rfl rfl (by decide) (by decide) rfl
  rw [h]
  rfl

/-! ### C1: what the breakdown section actually lists -/

/-- A file system with nothing in it: every stat fails and every glob
expansion matches nothing (doublestar silently ignores the read errors
of a nonexistent root by default and returns no matches). -/
def emptyFsEnv : FsEnv where
  getwd := Except.ok "/wd"
  glob := fun _ _ => Except.ok []
  stat := fun _ => none
  readFile := fun _ => none

/-- C1 (counterexample): a run that supplies the same pattern twice
has more than one supplied pattern, but the results map — a Go map
keyed by the pattern string — holds a single entry, so every possible
map enumeration prints a single breakdown line, not one line per
supplied pattern in command-line order as the claim requires. -/
theorem breakdown_duplicate_counterexample :
    countLocs emptyFsEnv "/r" ["**/*.a", "**/*.a"] = [("**/*.a", 0)] ∧
    breakdownLines (countLocs emptyFsEnv "/r" ["**/*.a", "**/*.a"])
      = ["-  **/*.a: 0"] ∧
    breakdownLines (countLocs emptyFsEnv "/r" ["**/*.a", "**/*.a"]) ≠
      ["**/*.a", "**/*.a"].map (fun p => "-  " ++ p ++ ": " ++ toString 0) := by
  refine ⟨rfl, rfl, ?_⟩
  decide

/-- C1 (amended): for every enumeration order of the results map (Go
leaves map iteration order unspecified, so any permutation of the map
contents may be printed), the breakdown holds exactly one line of the
form printed by processInput per distinct successfully expanded
pattern, carrying the total computed for that pattern; duplicate
supplied patterns collapse to a single line, failed patterns are
absent, and no particular line order — in particular not command-line
order — is guaranteed. -/
theorem breakdown_distinct_successful (env : FsEnv) (root : String)
    (patterns : List String) (enum : List (String × Nat))
    (h : List.Perm enum (countLocs env root patterns)) :
    breakdownLines enum
        = enum.map (fun pc => "-  " ++ pc.1 ++ ": " ++ toString pc.2) ∧
    (enum.map Prod.fst).Nodup ∧
    (∀ p c, (p, c) ∈ enum ↔
      (p ∈ patterns ∧ countLocsPattern env root p = some c)) := by
  refine ⟨rfl, ?_, ?_⟩
  · have hn := countLocs_keys_nodup env root patterns
    exact ((h.map Prod.fst).nodup_iff).mpr hn
  · intro p c
    rw [h.mem_iff]
    exact countLocs_mem env root patterns p c

/-- C1 (witness): the sample run stores total 6 for its pattern and
its breakdown line is printed in the stated form. -/
theorem breakdown_distinct_witness :
    breakdownLines [("**/*.txt", 6)] = ["-  **/*.txt: 6"] ∧
    countLocsPattern sampleEnv "/r" "**/*.txt" = some 6 := by
  have h := breakdown_distinct_successful sampleEnv "/r" ["**/*.txt"]
      [("**/*.txt", 6)] (by decide)
  refine ⟨by rw [h.1]; rfl, ?_⟩
  exact ((h.2.2 "**/*.txt" 6).mp (by decide)).2

/-! ### C2: when directory resolution is fatal -/

/-- C2 (counterexample): the directory /nonexistent does not exist in
this file system (every stat fails), yet filepath.Abs resolves it — an
already absolute path is returned without consulting the file system —
so the run does not abort: it prints a normal report with a zero total
and exits with status 0. -/
theorem nonexistent_dir_counterexample :
    emptyFsEnv.stat "/nonexistent" = none ∧
    processInput emptyFsEnv "t" "/nonexistent" ["**/*.go"] [("**/*.go", 0)] =
      ProcResult.done ["Total:\t0 lines of code", "", "Elapsed time: t"] [] ∧
    procExitCode
      (processInput emptyFsEnv "t" "/nonexistent" ["**/*.go"] [("**/*.go", 0)]) = 0 := by
  exact ⟨rfl, rfl, rfl⟩

/-- C2 (amended): the run aborts with the fatal message on standard
error and exit status 1, with no report printed, exactly when
filepath.Abs fails — which happens only for a relative directory
argument whose working-directory lookup fails; whenever resolution
succeeds, including for an absolute path that names no existing
directory, a report is printed and the exit status is 0.  An absolute
directory argument never fails resolution. -/
theorem directory_resolution_fatal (env : FsEnv) (elapsed dir : String)
    (patterns : List String) (enum : List (String × Nat)) :
    (∀ e, filepathAbs env.getwd dir = Except.error e →
      processInput env elapsed dir patterns enum
          = ProcResult.fatal ("Failed to resolve directory: " ++ e) ∧
      procStdout (processInput env elapsed dir patterns enum) = [] ∧
      procExitCode (processInput env elapsed dir patterns enum) = 1) ∧
    (∀ a, filepathAbs env.getwd dir = Except.ok a →
      procExitCode (processInput env elapsed dir patterns enum) = 0 ∧
      procStdout (processInput env elapsed dir patterns enum) ≠ []) ∧
    (isAbsPath dir = true → ∀ e, filepathAbs env.getwd dir ≠ Except.error e) := by
  refine ⟨?_, ?_, ?_⟩
  · intro e he
    refine ⟨?_, ?_, ?_⟩ <;> simp [processInput, he, procStdout, procExitCode]
  · intro a ha
    constructor
    · simp [processInput, ha, procExitCode]
    · simp [processInput, ha, procStdout]
  · intro habs e
    simp [filepathAbs, habs]

/-- A run whose working-directory lookup fails. -/
def noWdEnv : FsEnv where
  getwd := Except.error "getwd failed"
  glob := fun _ _ => Except.ok []
  stat := fun _ => none
  readFile := fun _ => none

/-- C2 (witness): a relative directory argument with a failing
working-directory lookup aborts fatally with the stated message. -/
theorem directory_resolution_witness :
    processInput noWdEnv "t" "rel" ["*"] [] =
      ProcResult.fatal "Failed to resolve directory: getwd failed" :=
  ((directory_resolution_fatal noWdEnv "t" "rel" ["*"] []).1 "getwd failed" rfl).1
